import Mathlib

/-!
# Verification of the task-flow backend core

Shallow embedding of the three services of the repository
(`user/user.go`, `board/board.go`, `task/task.go`) together with the
storage behaviour fixed by their SQL migrations, and proofs of the
specification's testable properties over that embedding.

Stores are modelled as lists of rows; every id, role, status and stage is
a `String`, exactly as the Go code compares them.  Each API handler
becomes a pure function from the store state (plus the authenticated
user id and, where the code asks the database to generate a fresh id,
that id as an explicit argument) to a result paired with the new store
state.  Database writes that the Go code performs with separate `Exec`
calls can individually fail; where a claim is about that fault
behaviour, the handler takes explicit failure flags for its writes.
-/

/-- Error codes of the `errs` package that the services use. -/
inductive ErrCode where
  | unauthenticated
  | invalidArgument
  | permissionDenied
  | notFound
  | alreadyExists
  | failedPrecondition
  | internal
  deriving DecidableEq, Repr

/-- An error as built by `errs.B().Code(..).Msg(..)`: a code and a message. -/
structure Err where
  code : ErrCode
  msg : String
  deriving DecidableEq, Repr

/-- Row of the `boards` table (board service migration). -/
structure Board where
  id : String
  name : String
  description : String
  createdBy : String
  deriving DecidableEq, Repr

/-- Row of the `board_members` table: composite key (board_id, user_id). -/
structure MemberRow where
  boardId : String
  userId : String
  role : String
  deriving DecidableEq, Repr

/-- Row of the `invitations` table. -/
structure Invitation where
  id : String
  boardId : String
  inviterId : String
  inviteeId : String
  role : String
  status : String
  deriving DecidableEq, Repr

/-- State of the board service's database (`boards` schema). -/
structure BoardDB where
  boards : List Board
  members : List MemberRow
  invitations : List Invitation
  deriving DecidableEq, Repr

/-- Row of the `tasks` table (task service migration).  Timestamps are
kept as the RFC3339 strings the Go code writes. -/
structure TaskRow where
  id : String
  boardId : String
  title : String
  description : String
  createdBy : String
  assigneeId : String
  stage : String
  createdAt : String
  updatedAt : String
  deriving DecidableEq, Repr

/-- State of the task service's database (`tasks` schema). -/
structure TaskDB where
  tasks : List TaskRow
  deriving DecidableEq, Repr

/-- `SELECT role FROM board_members WHERE board_id = $1 AND user_id = $2`. -/
def findRole (db : BoardDB) (boardId userId : String) : Option String :=
  (db.members.find? (fun m => m.boardId == boardId && m.userId == userId)).map (·.role)

/-- `SELECT COUNT(*) FROM board_members WHERE board_id = $1 AND role = 'Admin'`. -/
def countAdmins (members : List MemberRow) (boardId : String) : Nat :=
  members.countP (fun m => m.boardId == boardId && m.role == "Admin")

/-- `CheckMembership` (board.go): returns `(IsMember, Role)`, with the role
empty when the user is not a member. -/
def checkMembership (db : BoardDB) (boardId uid : String) : Bool × String :=
  match findRole db boardId uid with
  | none => (false, "")
  | some r => (true, r)

/-- Input of `CreateBoard`. -/
structure CreateBoardParams where
  name : String
  description : String
  deriving DecidableEq, Repr

/-- Response of `CreateBoard` / `GetBoard` (creation timestamp omitted:
the Go code fills it with `time.Now()` for the response only). -/
structure BoardResponse where
  id : String
  name : String
  description : String
  createdBy : String
  deriving DecidableEq, Repr

/-- `CreateBoard` (board.go): validates the name, inserts the board row
and then the creator's `Admin` membership row.  `newId` stands for the
UUID the database generates for the board. -/
def createBoard (db : BoardDB) (uid : String) (p : CreateBoardParams)
    (newId : String) : Except Err BoardResponse × BoardDB :=
  if p.name = "" then
    (.error ⟨.invalidArgument, "name is required"⟩, db)
  else
    let db1 : BoardDB :=
      { db with boards := db.boards ++ [⟨newId, p.name, p.description, uid⟩] }
    let db2 : BoardDB :=
      { db1 with members := db1.members ++ [⟨newId, uid, "Admin"⟩] }
    (.ok ⟨newId, p.name, p.description, uid⟩, db2)

/-- Input of `InviteUser`. -/
structure InviteUserParams where
  boardId : String
  inviteeId : String
  role : String
  deriving DecidableEq, Repr

/-- `InviteUser` (board.go): only an Admin of the board may invite, the
proposed role must be `Member` or `Viewer`, and a `Pending` invitation
row is inserted.  `newId` stands for the generated invitation UUID. -/
def inviteUser (db : BoardDB) (uid : String) (p : InviteUserParams)
    (newId : String) : Except Err String × BoardDB :=
  if p.boardId = "" ∨ p.inviteeId = "" ∨ p.role = "" then
    (.error ⟨.invalidArgument, "board_id, invitee_id, and role are required"⟩, db)
  else if findRole db p.boardId uid ≠ some "Admin" then
    (.error ⟨.permissionDenied, "only Admin can invite users"⟩, db)
  else if p.role ≠ "Member" ∧ p.role ≠ "Viewer" then
    (.error ⟨.invalidArgument, "role must be 'Member' or 'Viewer'"⟩, db)
  else
    (.ok newId,
     { db with invitations :=
         db.invitations ++ [⟨newId, p.boardId, uid, p.inviteeId, p.role, "Pending"⟩] })

/-- Input of `HandleInvitation`: the invitation id and the action string
(`"Accepted"` or `"Rejected"`). -/
structure HandleInvitationParams where
  invitationId : String
  action : String
  deriving DecidableEq, Repr

/-- `INSERT INTO board_members .. ON CONFLICT DO NOTHING`: the row is
appended unless the (board_id, user_id) key already exists. -/
def insertMemberNoConflict (members : List MemberRow) (row : MemberRow) :
    List MemberRow :=
  if members.any (fun m => m.boardId == row.boardId && m.userId == row.userId) then
    members
  else
    members ++ [row]

/-- `HandleInvitation` (board.go), with the possibility that either of
its two database writes fails (each is a separate `Exec`; there is no
transaction around them).  `insertFails` makes the membership insert of
the accept branch fail, `updateFails` makes the status update fail; the
plain handler is the instance where both flags are `false`. -/
def handleInvitationF (db : BoardDB) (uid : String)
    (p : HandleInvitationParams) (insertFails updateFails : Bool) :
    Except Err String × BoardDB :=
  if p.invitationId = "" ∨ p.action = "" then
    (.error ⟨.invalidArgument, "invitation_id and action are required"⟩, db)
  else if p.action ≠ "Accepted" ∧ p.action ≠ "Rejected" then
    (.error ⟨.invalidArgument, "action must be 'Accepted' or 'Rejected'"⟩, db)
  else
    match db.invitations.find?
        (fun i => i.id == p.invitationId && i.inviteeId == uid) with
    | none =>
      (.error ⟨.notFound, "invitation not found or not for this user"⟩, db)
    | some inv =>
      if inv.status ≠ "Pending" then
        (.error ⟨.failedPrecondition, "invitation already processed"⟩, db)
      else
        if p.action = "Accepted" ∧ insertFails then
          (.error ⟨.internal, "failed to add user to board"⟩, db)
        else
          let db1 : BoardDB :=
            if p.action = "Accepted" then
              { db with members :=
                  insertMemberNoConflict db.members ⟨inv.boardId, uid, inv.role⟩ }
            else
              db
          if updateFails then
            (.error ⟨.internal, "failed to update invitation status"⟩, db1)
          else
            (.ok inv.boardId,
             { db1 with invitations := db1.invitations.map (fun i =>
                 if i.id == p.invitationId then { i with status := p.action } else i) })

/-- `HandleInvitation` when both writes succeed. -/
def handleInvitation (db : BoardDB) (uid : String)
    (p : HandleInvitationParams) : Except Err String × BoardDB :=
  handleInvitationF db uid p false false

/-- `RemoveUser` (board.go): permission check on the acting user, then
existence of the target membership, then the last-Admin guard, then the
delete. -/
def removeUser (db : BoardDB) (uid boardId userId : String) :
    Except Err String × BoardDB :=
  match findRole db boardId uid with
  | none =>
    (.error ⟨.permissionDenied,
      "access denied: not a member or insufficient permissions"⟩, db)
  | some role =>
    if role ≠ "Admin" ∧ uid ≠ userId then
      (.error ⟨.permissionDenied,
        "only Admin or the user themselves can remove a user"⟩, db)
    else if ¬ db.members.any (fun m => m.boardId == boardId && m.userId == userId) then
      (.error ⟨.notFound, "user not a member of this board"⟩, db)
    else
      match findRole db boardId userId with
      | none => (.error ⟨.internal, "failed to fetch target role"⟩, db)
      | some targetRole =>
        if targetRole = "Admin" ∧ countAdmins db.members boardId ≤ 1 then
          (.error ⟨.failedPrecondition, "cannot remove the last Admin"⟩, db)
        else
          (.ok "User removed successfully",
           { db with members := (db.members.filter
               (fun m => ¬ (m.boardId == boardId && m.userId == userId))) })

/-- `DELETE FROM boards WHERE id = $1` together with the storage-level
`ON DELETE CASCADE` of `board_members.board_id` and
`invitations.board_id` declared in the board schema. -/
def deleteBoardCascade (db : BoardDB) (boardId : String) : BoardDB :=
  { boards := db.boards.filter (fun b => ¬ b.id == boardId),
    members := db.members.filter (fun m => ¬ m.boardId == boardId),
    invitations := db.invitations.filter (fun i => ¬ i.boardId == boardId) }

/-- `RemoveBoard` (board.go): Admin-only; deletes the board row (the
cascade removes its membership and invitation rows), reports `NotFound`
when no row was deleted, and on success returns the `BoardDeleted`
event to publish. -/
def removeBoard (db : BoardDB) (uid boardId : String) :
    Except Err String × BoardDB × Option String :=
  if findRole db boardId uid ≠ some "Admin" then
    (.error ⟨.permissionDenied, "only Admin can delete a board"⟩, db, none)
  else if ¬ db.boards.any (fun b => b.id == boardId) then
    (.error ⟨.notFound, "board not found"⟩, db, none)
  else
    (.ok "Board deleted successfully", deleteBoardCascade db boardId, some boardId)

/-- Input of `CreateTask`. -/
structure CreateTaskParams where
  boardId : String
  title : String
  description : String
  assigneeId : String
  stage : String
  deriving DecidableEq, Repr

/-- Response of the task endpoints. -/
structure TaskResponse where
  id : String
  boardId : String
  title : String
  description : String
  createdBy : String
  assigneeId : String
  stage : String
  createdAt : String
  updatedAt : String
  deriving DecidableEq, Repr

/-- `CreateTask` (task.go): requires the caller to be an Admin or Member
of the board (a Viewer is refused), defaults the stage to `To Do`,
validates it against the three-value enum and inserts the row.  `newId`
stands for the generated task UUID and `now` for `time.Now()`. -/
def createTask (bdb : BoardDB) (tdb : TaskDB) (uid : String)
    (p : CreateTaskParams) (newId now : String) :
    Except Err TaskResponse × TaskDB :=
  if p.boardId = "" ∨ p.title = "" then
    (.error ⟨.invalidArgument, "board_id and title are required"⟩, tdb)
  else
    let m := checkMembership bdb p.boardId uid
    if m.1 = false then
      (.error ⟨.permissionDenied, "access denied: must be a board member"⟩, tdb)
    else if m.2 = "Viewer" then
      (.error ⟨.permissionDenied,
        "access denied: only Admins and Members can create tasks"⟩, tdb)
    else
      let stage := if p.stage = "" then "To Do" else p.stage
      if stage ≠ "To Do" ∧ stage ≠ "In Progress" ∧ stage ≠ "Done" then
        (.error ⟨.invalidArgument,
          "stage must be 'To Do', 'In Progress', or 'Done'"⟩, tdb)
      else
        (.ok ⟨newId, p.boardId, p.title, p.description, uid, p.assigneeId,
           stage, now, now⟩,
         ⟨tdb.tasks ++
           [⟨newId, p.boardId, p.title, p.description, uid, p.assigneeId,
             stage, now, now⟩]⟩)

/-- Input of `UpdateTask`: all fields optional, empty string meaning
"not provided". -/
structure UpdateTaskParams where
  title : String
  description : String
  assigneeId : String
  stage : String
  deriving DecidableEq, Repr

/-- The partial-field merge `UpdateTask` applies to the stored values:
an empty request field keeps the stored value, a non-empty one replaces
it; `updated_at` is set to `now`. -/
def mergeTask (t : TaskRow) (p : UpdateTaskParams) (now : String) : TaskRow :=
  { t with
    title := if p.title = "" then t.title else p.title,
    description := if p.description = "" then t.description else p.description,
    assigneeId := if p.assigneeId = "" then t.assigneeId else p.assigneeId,
    stage := if p.stage = "" then t.stage else p.stage,
    updatedAt := now }

/-- `UpdateTask` (task.go): fetches the task, re-derives the caller's
role, allows only an Admin of the board or the task's creator (who must
still be a member), validates a provided stage, and writes the merged
row back by task id. -/
def updateTask (bdb : BoardDB) (tdb : TaskDB) (uid taskId : String)
    (p : UpdateTaskParams) (now : String) :
    Except Err TaskResponse × TaskDB :=
  match tdb.tasks.find? (fun t => t.id == taskId) with
  | none => (.error ⟨.notFound, "task not found"⟩, tdb)
  | some t =>
    let m := checkMembership bdb t.boardId uid
    if m.1 = false then
      (.error ⟨.permissionDenied,
        "access denied: must be a board member to update task"⟩, tdb)
    else if m.2 ≠ "Admin" ∧ t.createdBy ≠ uid then
      (.error ⟨.permissionDenied,
        "access denied: only Admin or creator can update task"⟩, tdb)
    else if p.stage ≠ "" ∧ p.stage ≠ "To Do" ∧ p.stage ≠ "In Progress" ∧
        p.stage ≠ "Done" then
      (.error ⟨.invalidArgument,
        "stage must be 'To Do', 'In Progress', or 'Done'"⟩, tdb)
    else
      let merged := mergeTask t p now
      (.ok ⟨taskId, t.boardId, merged.title, merged.description, t.createdBy,
         merged.assigneeId, merged.stage, t.createdAt, now⟩,
       ⟨tdb.tasks.map (fun r =>
         if r.id == taskId then mergeTask r p now else r)⟩)

/-- Query parameters of `ListTasks`. -/
structure ListTasksParams where
  stage : String
  limit : Int
  offset : Int
  deriving DecidableEq, Repr

/-- Response of `ListTasks`: the page of tasks and the total count. -/
structure ListTasksResponse where
  tasks : List TaskResponse
  total : Nat
  deriving DecidableEq, Repr

/-- A stored task rendered as the response row `ListTasks` returns. -/
def taskToResponse (t : TaskRow) : TaskResponse :=
  ⟨t.id, t.boardId, t.title, t.description, t.createdBy, t.assigneeId,
   t.stage, t.createdAt, t.updatedAt⟩

/-- `ListTasks` (task.go): Admins and Members only (a Viewer is
refused), optional stage filter, pagination by limit and offset over
the rows ordered by creation time. -/
def listTasks (bdb : BoardDB) (tdb : TaskDB) (uid boardId : String)
    (p : ListTasksParams) : Except Err ListTasksResponse :=
  let m := checkMembership bdb boardId uid
  if m.1 = false then
    (.error ⟨.permissionDenied,
      "access denied: must be a board member to list tasks"⟩)
  else if m.2 = "Viewer" then
    (.error ⟨.permissionDenied,
      "access denied: only Admins and Members can list tasks"⟩)
  else if p.stage ≠ "" ∧ p.stage ≠ "To Do" ∧ p.stage ≠ "In Progress" ∧
      p.stage ≠ "Done" then
    (.error ⟨.invalidArgument,
      "stage must be 'To Do', 'In Progress', or 'Done'"⟩)
  else if p.limit ≤ 0 ∨ p.offset < 0 then
    (.error ⟨.invalidArgument, "limit must be positive and offset non-negative"⟩)
  else
    let matching := tdb.tasks.filter (fun t =>
      t.boardId == boardId && (p.stage == "" || t.stage == p.stage))
    let ordered := matching.mergeSort (fun a b => a.createdAt ≤ b.createdAt)
    let page := (ordered.drop p.offset.toNat).take p.limit.toNat
    (.ok ⟨page.map taskToResponse, matching.length⟩)

/-- `DeleteTask` (task.go): fetches the task, re-derives the caller's
role, allows only an Admin of the board or the task's creator (still a
member), and deletes the row by id. -/
def deleteTask (bdb : BoardDB) (tdb : TaskDB) (uid taskId : String) :
    Except Err String × TaskDB :=
  match tdb.tasks.find? (fun t => t.id == taskId) with
  | none => (.error ⟨.notFound, "task not found"⟩, tdb)
  | some t =>
    let m := checkMembership bdb t.boardId uid
    if m.1 = false then
      (.error ⟨.permissionDenied,
        "access denied: must be a board member to delete task"⟩, tdb)
    else if m.2 ≠ "Admin" ∧ t.createdBy ≠ uid then
      (.error ⟨.permissionDenied,
        "access denied: only Admin or creator can delete task"⟩, tdb)
    else
      (.ok "Task deleted successfully",
       ⟨tdb.tasks.filter (fun r => ¬ r.id == taskId)⟩)

/-- `handleBoardDeleteEvent` (task.go): the subscriber of the
`board-deleted` topic deletes every task of the announced board and
reports success, also when there is nothing to delete. -/
def handleBoardDeleteEvent (tdb : TaskDB) (boardId : String) :
    Except Err Unit × TaskDB :=
  (.ok (), ⟨tdb.tasks.filter (fun t => ¬ t.boardId == boardId)⟩)

/-- Row of the `users` table (user service migration). -/
structure UserRow where
  id : String
  email : String
  passwordHash : String
  deriving DecidableEq, Repr

/-- `Login` (user.go), parameterised by the bcrypt comparison
(`check hash password` is true when the password matches the stored
hash) and by the JWT signing of the success token (`sign id email`).
An unknown email and a failed password comparison both produce the
generic `Unauthenticated` "invalid email or password" error. -/
def login (check : String → String → Bool) (sign : String → String → String)
    (users : List UserRow) (email password : String) : Except Err String :=
  if email = "" ∨ password = "" then
    .error ⟨.invalidArgument, "email and password are required"⟩
  else
    match users.find? (fun u => u.email == email) with
    | none => .error ⟨.unauthenticated, "invalid email or password"⟩
    | some u =>
      if check u.passwordHash password = false then
        .error ⟨.unauthenticated, "invalid email or password"⟩
      else
        .ok (sign u.id email)

/-- Combined state of the system: the two databases plus the queue of
published (not yet necessarily delivered) `BoardDeleted` events. -/
structure Sys where
  bdb : BoardDB
  tdb : TaskDB
  events : List String
  deriving DecidableEq, Repr

/-- The empty initial state. -/
def initSys : Sys := ⟨⟨[], [], []⟩, ⟨[]⟩, []⟩

/-- State after a `CreateBoard` call. -/
def stepCreateBoard (s : Sys) (uid : String) (p : CreateBoardParams)
    (newId : String) : Sys :=
  { s with bdb := (createBoard s.bdb uid p newId).2 }

/-- State after an `InviteUser` call. -/
def stepInviteUser (s : Sys) (uid : String) (p : InviteUserParams)
    (newId : String) : Sys :=
  { s with bdb := (inviteUser s.bdb uid p newId).2 }

/-- State after a `HandleInvitation` call. -/
def stepHandleInvitation (s : Sys) (uid : String)
    (p : HandleInvitationParams) : Sys :=
  { s with bdb := (handleInvitation s.bdb uid p).2 }

/-- State after a `RemoveUser` call. -/
def stepRemoveUser (s : Sys) (uid boardId userId : String) : Sys :=
  { s with bdb := (removeUser s.bdb uid boardId userId).2 }

/-- State after a `RemoveBoard` call: on success the published
`BoardDeleted` event joins the queue. -/
def stepRemoveBoard (s : Sys) (uid boardId : String) : Sys :=
  let r := removeBoard s.bdb uid boardId
  { s with bdb := r.2.1,
           events := s.events ++ (r.2.2.elim [] (fun e => [e])) }

/-- State after a `CreateTask` call. -/
def stepCreateTask (s : Sys) (uid : String) (p : CreateTaskParams)
    (newId now : String) : Sys :=
  { s with tdb := (createTask s.bdb s.tdb uid p newId now).2 }

/-- State after an `UpdateTask` call. -/
def stepUpdateTask (s : Sys) (uid taskId : String) (p : UpdateTaskParams)
    (now : String) : Sys :=
  { s with tdb := (updateTask s.bdb s.tdb uid taskId p now).2 }

/-- State after a `DeleteTask` call. -/
def stepDeleteTask (s : Sys) (uid taskId : String) : Sys :=
  { s with tdb := (deleteTask s.bdb s.tdb uid taskId).2 }

/-- State after the task service consumes one `BoardDeleted` event.
Delivery is at-least-once, so the event stays available for redelivery. -/
def stepDeliver (s : Sys) (boardId : String) : Sys :=
  { s with tdb := (handleBoardDeleteEvent s.tdb boardId).2 }

/-- An id is fresh for the board registry when no board row carries it. -/
abbrev FreshBoardId (s : Sys) (newId : String) : Prop :=
  ∀ b ∈ s.bdb.boards, b.id ≠ newId

/-- An id is fresh for the invitation table when no invitation carries it. -/
abbrev FreshInvitationId (s : Sys) (newId : String) : Prop :=
  ∀ i ∈ s.bdb.invitations, i.id ≠ newId

/-- An id is fresh for the task table when no task row carries it. -/
abbrev FreshTaskId (s : Sys) (newId : String) : Prop :=
  ∀ t ∈ s.tdb.tasks, t.id ≠ newId

/-- One externally triggered transition of the system: any API call by
any authenticated user with any arguments (the database-generated ids
are fresh, as a UUID primary key guarantees), or the delivery of a
published `BoardDeleted` event. -/
inductive Step : Sys → Sys → Prop where
  | createBoard (s : Sys) (uid : String) (p : CreateBoardParams) (newId : String)
      (hfresh : FreshBoardId s newId) : Step s (stepCreateBoard s uid p newId)
  | inviteUser (s : Sys) (uid : String) (p : InviteUserParams) (newId : String)
      (hfresh : FreshInvitationId s newId) : Step s (stepInviteUser s uid p newId)
  | handleInvitation (s : Sys) (uid : String) (p : HandleInvitationParams) :
      Step s (stepHandleInvitation s uid p)
  | removeUser (s : Sys) (uid boardId userId : String) :
      Step s (stepRemoveUser s uid boardId userId)
  | removeBoard (s : Sys) (uid boardId : String) :
      Step s (stepRemoveBoard s uid boardId)
  | createTask (s : Sys) (uid : String) (p : CreateTaskParams) (newId now : String)
      (hfresh : FreshTaskId s newId) : Step s (stepCreateTask s uid p newId now)
  | updateTask (s : Sys) (uid taskId : String) (p : UpdateTaskParams) (now : String) :
      Step s (stepUpdateTask s uid taskId p now)
  | deleteTask (s : Sys) (uid taskId : String) :
      Step s (stepDeleteTask s uid taskId)
  | deliver (s : Sys) (boardId : String) (hev : boardId ∈ s.events) :
      Step s (stepDeliver s boardId)

/-- Reachability from the empty initial state. -/
def Reachable (s : Sys) : Prop :=
  Relation.ReflTransGen Step initSys s

/-- The composite primary key of `board_members`: no two rows share
the (board_id, user_id) pair. -/
def KeysNodup (members : List MemberRow) : Prop :=
  members.Pairwise (fun a b => ¬ (a.boardId = b.boardId ∧ a.userId = b.userId))

/-- Some board row carries the given id. -/
def HasBoard (boards : List Board) (bid : String) : Prop :=
  ∃ b ∈ boards, b.id = bid

/-- Invariant of the board service's store, maintained by every
operation: each registered board has exactly one `Admin` membership
row, membership rows and invitations reference registered boards,
membership keys are unique, and invitations only carry the two
invitable roles. -/
structure BoardInv (db : BoardDB) : Prop where
  adminOne : ∀ b ∈ db.boards, countAdmins db.members b.id = 1
  memberBoard : ∀ m ∈ db.members, HasBoard db.boards m.boardId
  keys : KeysNodup db.members
  invRole : ∀ i ∈ db.invitations, i.role = "Member" ∨ i.role = "Viewer"
  invBoard : ∀ i ∈ db.invitations, HasBoard db.boards i.boardId

/-- A sequence of `RemoveUser` calls, each a triple of acting user,
board id and target user, applied in order to the store. -/
def applyRemoveUsers (db : BoardDB) (calls : List (String × String × String)) :
    BoardDB :=
  calls.foldl (fun d c => (removeUser d c.1 c.2.1 c.2.2).2) db

/-- Concrete run for the Viewer-creator scenario: `a` creates board
`b1`; invites `v` as Member; `v` accepts and creates task `t1`; `a`
removes `v`; `a` re-invites `v` as Viewer; `v` accepts.  In the final
state `v` is a Viewer of `b1` and the creator of `t1`. -/
def viewerScenario : Sys :=
  stepHandleInvitation
    (stepInviteUser
      (stepRemoveUser
        (stepCreateTask
          (stepHandleInvitation
            (stepInviteUser (stepCreateBoard initSys "a" ⟨"B", ""⟩ "b1")
              "a" ⟨"b1", "v", "Member"⟩ "i1")
            "v" ⟨"i1", "Accepted"⟩)
          "v" ⟨"b1", "T", "", "", ""⟩ "t1" "T0")
        "a" "b1" "v")
      "a" ⟨"b1", "v", "Viewer"⟩ "i2")
    "v" ⟨"i2", "Accepted"⟩

/-- Concrete run for the cascade scenario, before the board deletion:
`a` creates board `b1`; invites `c` as Member; `c` accepts and creates
task `t1` on `b1`. -/
def cascadeMid : Sys :=
  stepCreateTask
    (stepHandleInvitation
      (stepInviteUser (stepCreateBoard initSys "a" ⟨"B", ""⟩ "b1")
        "a" ⟨"b1", "c", "Member"⟩ "i1")
      "c" ⟨"i1", "Accepted"⟩)
    "c" ⟨"b1", "T", "", "", ""⟩ "t1" "T0"

/-- The cascade scenario's final state: `a` deletes `b1` and the
`BoardDeleted` event is delivered to the task service. -/
def cascadeScenario : Sys :=
  stepDeliver (stepRemoveBoard cascadeMid "a" "b1") "b1"

/-- The Boolean predicate `countAdmins` counts. -/
def isAdminOf (bid : String) (m : MemberRow) : Bool :=
  m.boardId == bid && m.role == "Admin"

theorem countAdmins_def (ms : List MemberRow) (bid : String) :
    countAdmins ms bid = ms.countP (isAdminOf bid) := rfl

theorem countAdmins_append_single (ms : List MemberRow) (row : MemberRow)
    (bid : String) :
    countAdmins (ms ++ [row]) bid =
      countAdmins ms bid + (if row.boardId = bid ∧ row.role = "Admin" then 1 else 0) := by
  simp only [countAdmins_def, List.countP_append, List.countP_cons,
    List.countP_nil, isAdminOf]
  by_cases h1 : row.boardId = bid <;> by_cases h2 : row.role = "Admin" <;>
    simp [h1, h2]

theorem countAdmins_eq_zero {ms : List MemberRow} {bid : String}
    (h : ∀ m ∈ ms, m.boardId ≠ bid) : countAdmins ms bid = 0 := by
  rw [countAdmins_def, List.countP_eq_zero]
  intro m hm
  simp only [isAdminOf, Bool.and_eq_true, beq_iff_eq]
  exact fun hc => h m hm hc.1

theorem countAdmins_filter_eq {ms : List MemberRow} {bid : String}
    {q : MemberRow → Bool}
    (h : ∀ m ∈ ms, m.boardId = bid → m.role = "Admin" → q m = true) :
    countAdmins (ms.filter q) bid = countAdmins ms bid := by
  rw [countAdmins_def, countAdmins_def, List.countP_filter]
  apply List.countP_congr
  intro m hm
  by_cases ha : isAdminOf bid m = true
  · have hb : m.boardId = bid ∧ m.role = "Admin" := by
      simpa [isAdminOf] using ha
    simp [ha, h m hm hb.1 hb.2]
  · simp only [Bool.eq_false_iff] at ha
    simp [Bool.eq_false_iff.mpr ha]

theorem keysNodup_unique {ms : List MemberRow} (h : KeysNodup ms)
    {a b : MemberRow} (ha : a ∈ ms) (hb : b ∈ ms)
    (hk : a.boardId = b.boardId ∧ a.userId = b.userId) : a = b := by
  by_contra hne
  have hsymm : Symmetric (fun a b : MemberRow =>
      ¬ (a.boardId = b.boardId ∧ a.userId = b.userId)) := by
    intro x y hxy hc
    exact hxy ⟨hc.1.symm, hc.2.symm⟩
  exact (List.Pairwise.forall hsymm h) ha hb hne hk

theorem findRole_mem {db : BoardDB} {bid uid r : String}
    (h : findRole db bid uid = some r) :
    ∃ m ∈ db.members, m.boardId = bid ∧ m.userId = uid ∧ m.role = r := by
  simp only [findRole, Option.map_eq_some'] at h
  obtain ⟨m, hm, hr⟩ := h
  have hmem := List.mem_of_find?_eq_some hm
  have hp := List.find?_some hm
  simp only [Bool.and_eq_true, beq_iff_eq] at hp
  exact ⟨m, hmem, hp.1, hp.2, hr⟩

theorem findRole_of_mem {db : BoardDB} (hk : KeysNodup db.members)
    {m : MemberRow} (hm : m ∈ db.members) :
    findRole db m.boardId m.userId = some m.role := by
  have hsome : (db.members.find? (fun x =>
      x.boardId == m.boardId && x.userId == m.userId)).isSome := by
    rw [List.find?_isSome]
    exact ⟨m, hm, by simp⟩
  obtain ⟨r, hr⟩ := Option.isSome_iff_exists.mp hsome
  have hmem := List.mem_of_find?_eq_some hr
  have hp := List.find?_some hr
  simp only [Bool.and_eq_true, beq_iff_eq] at hp
  have : r = m := keysNodup_unique hk hmem hm ⟨hp.1, hp.2⟩
  subst this
  simp [findRole, hr]

theorem countAdmins_insertNoConflict {ms : List MemberRow} {row : MemberRow}
    (h : row.role ≠ "Admin") (bid : String) :
    countAdmins (insertMemberNoConflict ms row) bid = countAdmins ms bid := by
  unfold insertMemberNoConflict
  split
  · rfl
  · rw [countAdmins_append_single]
    simp [h]

theorem keysNodup_insertNoConflict {ms : List MemberRow} {row : MemberRow}
    (h : KeysNodup ms) : KeysNodup (insertMemberNoConflict ms row) := by
  unfold insertMemberNoConflict
  split
  · exact h
  · rename_i hany
    rw [KeysNodup, List.pairwise_append]
    refine ⟨h, List.pairwise_singleton _ _, ?_⟩
    intro a ha b hb hc
    rw [List.mem_singleton] at hb
    subst hb
    rw [List.any_eq_true] at hany
    exact hany ⟨a, ha, by simp [hc.1, hc.2]⟩

theorem hasBoard_append {boards : List Board} {bid : String}
    (h : HasBoard boards bid) (l : List Board) : HasBoard (boards ++ l) bid := by
  obtain ⟨b, hb, he⟩ := h
  exact ⟨b, List.mem_append_left _ hb, he⟩

theorem memberBoard_not_fresh {db : BoardDB} (h : BoardInv db) {newId : String}
    (hfresh : ∀ b ∈ db.boards, b.id ≠ newId) :
    ∀ m ∈ db.members, m.boardId ≠ newId := by
  intro m hm he
  obtain ⟨b0, hb0, hid⟩ := h.memberBoard m hm
  exact hfresh b0 hb0 (hid.trans he)

theorem boardInv_createBoard {db : BoardDB} (h : BoardInv db) (uid : String)
    (p : CreateBoardParams) {newId : String}
    (hfresh : ∀ b ∈ db.boards, b.id ≠ newId) :
    BoardInv (createBoard db uid p newId).2 := by
  by_cases hname : p.name = ""
  · simpa [createBoard, hname] using h
  · simp only [createBoard, hname, ite_false, if_neg, not_false_iff]
    refine ⟨?_, ?_, ?_, ?_, ?_⟩
    · intro b hb
      rw [countAdmins_append_single]
      rcases List.mem_append.mp hb with hbo | hbn
      · have hne : (newId : String) ≠ b.id := fun e => hfresh b hbo e.symm
        simp only [show (⟨newId, uid, "Admin"⟩ : MemberRow).boardId = newId from rfl]
        rw [if_neg (fun hc => hne hc.1)]
        simpa using h.adminOne b hbo
      · rw [List.mem_singleton] at hbn
        subst hbn
        have hz : countAdmins db.members newId = 0 :=
          countAdmins_eq_zero (memberBoard_not_fresh h hfresh)
        simp [hz]
    · intro m hm
      rcases List.mem_append.mp hm with hmo | hmn
      · exact hasBoard_append (h.memberBoard m hmo) _
      · rw [List.mem_singleton] at hmn
        subst hmn
        exact ⟨⟨newId, p.name, p.description, uid⟩,
          List.mem_append_right _ (List.mem_singleton.mpr rfl), rfl⟩
    · rw [KeysNodup, List.pairwise_append]
      refine ⟨h.keys, List.pairwise_singleton _ _, ?_⟩
      intro a ha b hb hc
      rw [List.mem_singleton] at hb
      subst hb
      exact memberBoard_not_fresh h hfresh a ha hc.1
    · exact h.invRole
    · intro i hi
      exact hasBoard_append (h.invBoard i hi) _

theorem boardInv_inviteUser {db : BoardDB} (h : BoardInv db) (uid : String)
    (p : InviteUserParams) (newId : String) :
    BoardInv (inviteUser db uid p newId).2 := by
  unfold inviteUser
  split
  · exact h
  split
  · exact h
  split
  · exact h
  rename_i h1 h2 h3
  rw [not_not] at h2
  refine ⟨h.adminOne, h.memberBoard, h.keys, ?_, ?_⟩
  · intro i hi
    rcases List.mem_append.mp hi with hio | hin
    · exact h.invRole i hio
    · rw [List.mem_singleton] at hin
      subst hin
      by_cases hm : p.role = "Member"
      · exact Or.inl hm
      · exact Or.inr (by tauto)
  · intro i hi
    rcases List.mem_append.mp hi with hio | hin
    · exact h.invBoard i hio
    · rw [List.mem_singleton] at hin
      subst hin
      obtain ⟨m, hm, hbid, _, _⟩ := findRole_mem h2
      have := h.memberBoard m hm
      rwa [hbid] at this

theorem mem_insertMemberNoConflict {ms : List MemberRow} {row m : MemberRow}
    (h : m ∈ insertMemberNoConflict ms row) : m ∈ ms ∨ m = row := by
  unfold insertMemberNoConflict at h
  split at h
  · exact Or.inl h
  · rcases List.mem_append.mp h with hm | hm
    · exact Or.inl hm
    · exact Or.inr (List.mem_singleton.mp hm)

theorem statusMap_role (i : Invitation) (pid act : String) :
    (if i.id == pid then { i with status := act } else i).role = i.role := by
  split <;> rfl

theorem statusMap_boardId (i : Invitation) (pid act : String) :
    (if i.id == pid then { i with status := act } else i).boardId = i.boardId := by
  split <;> rfl

theorem boardInv_handleInvitation {db : BoardDB} (h : BoardInv db) (uid : String)
    (p : HandleInvitationParams) :
    BoardInv (handleInvitation db uid p).2 := by
  unfold handleInvitation handleInvitationF
  split
  · exact h
  split
  · exact h
  split
  · exact h
  rename_i h1 h2 inv hfind
  split
  · exact h
  rename_i hpending
  simp only [Bool.false_eq_true, and_false, ite_false, if_false, if_neg,
    not_false_iff]
  have hinvmem : inv ∈ db.invitations := List.mem_of_find?_eq_some hfind
  by_cases hacc : p.action = "Accepted"
  · simp only [hacc, ite_true, if_pos]
    have hrole : inv.role ≠ "Admin" := by
      rcases h.invRole inv hinvmem with hr | hr <;> simp [hr]
    refine ⟨?_, ?_, ?_, ?_, ?_⟩
    · intro b hb
      rw [countAdmins_insertNoConflict hrole]
      exact h.adminOne b hb
    · intro m hm
      rcases mem_insertMemberNoConflict hm with hmo | hmr
      · exact h.memberBoard m hmo
      · subst hmr
        exact h.invBoard inv hinvmem
    · exact keysNodup_insertNoConflict h.keys
    · intro i hi
      obtain ⟨i0, hi0, he⟩ := List.mem_map.mp hi
      subst he
      rw [statusMap_role]
      exact h.invRole i0 hi0
    · intro i hi
      obtain ⟨i0, hi0, he⟩ := List.mem_map.mp hi
      subst he
      rw [statusMap_boardId]
      exact h.invBoard i0 hi0
  · simp only [hacc, ite_false, if_neg, not_false_iff]
    refine ⟨h.adminOne, h.memberBoard, h.keys, ?_, ?_⟩
    · intro i hi
      obtain ⟨i0, hi0, he⟩ := List.mem_map.mp hi
      subst he
      rw [statusMap_role]
      exact h.invRole i0 hi0
    · intro i hi
      obtain ⟨i0, hi0, he⟩ := List.mem_map.mp hi
      subst he
      rw [statusMap_boardId]
      exact h.invBoard i0 hi0

theorem boardInv_removeUser {db : BoardDB} (h : BoardInv db)
    (uid boardId userId : String) :
    BoardInv (removeUser db uid boardId userId).2 := by
  unfold removeUser
  split
  · exact h
  rename_i role hactor
  split
  · exact h
  split
  · exact h
  split
  · exact h
  rename_i targetRole htarget
  split
  · exact h
  rename_i hFP
  refine ⟨?_, ?_, ?_, h.invRole, h.invBoard⟩
  · intro b hb
    rw [countAdmins_filter_eq ?_]
    · exact h.adminOne b hb
    · intro m hm hbid hadm
      simp only [decide_eq_true_eq, Bool.and_eq_true, beq_iff_eq, not_and]
      intro hmb hmu
      obtain ⟨r, hr, hrb, hru, hrr⟩ := findRole_mem htarget
      have hmr : m = r :=
        keysNodup_unique h.keys hm hr ⟨hmb.trans hrb.symm, hmu.trans hru.symm⟩
      apply hFP
      constructor
      · rw [← hrr, ← hmr, hadm]
      · have hbb : boardId = b.id := hmb.symm.trans hbid
        rw [hbb, h.adminOne b hb]
  · intro m hm
    exact h.memberBoard m (List.mem_filter.mp hm).1
  · exact List.Pairwise.sublist (List.filter_sublist _) h.keys

theorem boardInv_deleteBoardCascade {db : BoardDB} (h : BoardInv db)
    (boardId : String) : BoardInv (deleteBoardCascade db boardId) := by
  unfold deleteBoardCascade
  refine ⟨?_, ?_, ?_, ?_, ?_⟩
  · intro b hb
    rw [List.mem_filter, decide_eq_true_eq, beq_iff_eq] at hb
    rw [countAdmins_filter_eq ?_]
    · exact h.adminOne b hb.1
    · intro m hm hbid hadm
      simp only [decide_eq_true_eq, beq_iff_eq]
      rw [hbid]
      exact hb.2
  · intro m hm
    rw [List.mem_filter, decide_eq_true_eq, beq_iff_eq] at hm
    obtain ⟨b0, hb0, hid⟩ := h.memberBoard m hm.1
    refine ⟨b0, ?_, hid⟩
    rw [List.mem_filter, decide_eq_true_eq, beq_iff_eq]
    exact ⟨hb0, fun he => hm.2 (hid.symm.trans he)⟩
  · exact List.Pairwise.sublist (List.filter_sublist _) h.keys
  · intro i hi
    rw [List.mem_filter] at hi
    exact h.invRole i hi.1
  · intro i hi
    rw [List.mem_filter, decide_eq_true_eq, beq_iff_eq] at hi
    obtain ⟨b0, hb0, hid⟩ := h.invBoard i hi.1
    refine ⟨b0, ?_, hid⟩
    rw [List.mem_filter, decide_eq_true_eq, beq_iff_eq]
    exact ⟨hb0, fun he => hi.2 (hid.symm.trans he)⟩

theorem boardInv_removeBoard {db : BoardDB} (h : BoardInv db)
    (uid boardId : String) : BoardInv (removeBoard db uid boardId).2.1 := by
  unfold removeBoard
  split
  · exact h
  split
  · exact h
  exact boardInv_deleteBoardCascade h boardId

theorem boardInv_step {s s' : Sys} (hstep : Step s s') (h : BoardInv s.bdb) :
    BoardInv s'.bdb := by
  cases hstep with
  | createBoard uid p newId hfresh => exact boardInv_createBoard h uid p hfresh
  | inviteUser uid p newId hfresh => exact boardInv_inviteUser h uid p newId
  | handleInvitation uid p => exact boardInv_handleInvitation h uid p
  | removeUser uid boardId userId => exact boardInv_removeUser h uid boardId userId
  | removeBoard uid boardId => exact boardInv_removeBoard h uid boardId
  | createTask uid p newId now hfresh => exact h
  | updateTask uid taskId p now => exact h
  | deleteTask uid taskId => exact h
  | deliver boardId hev => exact h

theorem boardInv_init : BoardInv initSys.bdb := by
  constructor <;> simp [initSys, KeysNodup]

theorem reachable_boardInv {s : Sys} (h : Reachable s) : BoardInv s.bdb := by
  induction h with
  | refl => exact boardInv_init
  | tail hsteps hstep ih => exact boardInv_step hstep ih

theorem filter_notBoard_idem (l : List TaskRow) (boardId : String) :
    (l.filter (fun t => ¬ t.boardId == boardId)).filter
        (fun t => ¬ t.boardId == boardId) =
      l.filter (fun t => ¬ t.boardId == boardId) := by
  induction l with
  | nil => rfl
  | cons a l ih =>
    by_cases hc : a.boardId = boardId
    · simp [List.filter_cons, hc, ih]
    · simp [List.filter_cons, hc, ih]

/-- C5: the `BoardDeleted` cascade handler is idempotent: for every board
id and task store, it returns success, running it a second time returns
success again and leaves the store exactly as after the first run, and
after the first run zero tasks of that board remain — also when the
matching set was empty to begin with. -/
theorem boardDeleteEvent_idempotent (tdb : TaskDB) (boardId : String) :
    (handleBoardDeleteEvent tdb boardId).1 = .ok () ∧
    (handleBoardDeleteEvent
        (handleBoardDeleteEvent tdb boardId).2 boardId).1 = .ok () ∧
    (handleBoardDeleteEvent
        (handleBoardDeleteEvent tdb boardId).2 boardId).2 =
      (handleBoardDeleteEvent tdb boardId).2 ∧
    (handleBoardDeleteEvent tdb boardId).2.tasks.filter
        (fun t => t.boardId == boardId) = [] := by
  refine ⟨rfl, rfl, ?_, ?_⟩
  · unfold handleBoardDeleteEvent
    simp only
    rw [filter_notBoard_idem]
  · unfold handleBoardDeleteEvent
    simp only
    rw [List.filter_eq_nil_iff]
    intro t ht
    rw [List.mem_filter] at ht
    have := ht.2
    simp only [decide_eq_true_eq] at this
    simpa using this

/-- C9: for every user store, logging in with a wrong password on an
existing email produces exactly the same error (code and message) as
logging in with an unregistered email: the generic `Unauthenticated`
"invalid email or password". -/
theorem login_failure_indistinguishable
    (check : String → String → Bool) (sign : String → String → String)
    (users : List UserRow) (e1 pw1 e2 pw2 : String) (u : UserRow)
    (h1e : e1 ≠ "") (h1p : pw1 ≠ "") (h2e : e2 ≠ "") (h2p : pw2 ≠ "")
    (hfound : users.find? (fun x => x.email == e1) = some u)
    (hwrong : check u.passwordHash pw1 = false)
    (habsent : users.find? (fun x => x.email == e2) = none) :
    login check sign users e1 pw1 = login check sign users e2 pw2 ∧
    login check sign users e1 pw1 =
      .error ⟨.unauthenticated, "invalid email or password"⟩ := by
  unfold login
  rw [if_neg (by tauto), if_neg (by tauto), hfound, habsent]
  simp [hwrong]

/-- Witness for the C9 theorem at a concrete store: the user `u1` exists
with a stored hash that does not match the submitted password, the email
`b@x` is unregistered, and both logins fail identically. -/
theorem login_failure_indistinguishable_witness :
    login (fun h pw => h == pw) (fun i e => i ++ e)
        [⟨"u1", "a@x", "HASH"⟩] "a@x" "bad" =
      login (fun h pw => h == pw) (fun i e => i ++ e)
        [⟨"u1", "a@x", "HASH"⟩] "b@x" "bad" :=
  (login_failure_indistinguishable (fun h pw => h == pw) (fun i e => i ++ e)
    [⟨"u1", "a@x", "HASH"⟩] "a@x" "bad" "b@x" "bad" ⟨"u1", "a@x", "HASH"⟩
    (by decide) (by decide) (by decide) (by decide)
    (by rfl) (by rfl) (by rfl)).1

/-- C8: `UpdateTask` is a partial-field merge: when the caller is
authorized (an Admin of the board, or the creator, still a member) and
the requested stage is absent or valid, the call succeeds and the task
store becomes the old store with exactly the addressed row rewritten —
each of title, description, assignee and stage keeps its stored value
when the request field is empty and takes the request value otherwise
(`updated_at` is set to the call time); every other row is untouched. -/
theorem updateTask_partial_merge (bdb : BoardDB) (tdb : TaskDB)
    (uid taskId now : String) (p : UpdateTaskParams) (t : TaskRow) (role : String)
    (hfind : tdb.tasks.find? (fun x => x.id == taskId) = some t)
    (hmem : checkMembership bdb t.boardId uid = (true, role))
    (hauth : role = "Admin" ∨ t.createdBy = uid)
    (hstage : p.stage = "" ∨ p.stage = "To Do" ∨ p.stage = "In Progress" ∨
      p.stage = "Done") :
    (updateTask bdb tdb uid taskId p now).1.isOk = true ∧
    (updateTask bdb tdb uid taskId p now).2.tasks =
      tdb.tasks.map (fun r =>
        if r.id == taskId then
          { r with
            title := if p.title = "" then r.title else p.title,
            description := if p.description = "" then r.description
              else p.description,
            assigneeId := if p.assigneeId = "" then r.assigneeId
              else p.assigneeId,
            stage := if p.stage = "" then r.stage else p.stage,
            updatedAt := now }
        else r) := by
  unfold updateTask
  rw [hfind]
  simp only [hmem]
  rw [if_neg (by simp), if_neg (by tauto), if_neg (by tauto)]
  exact ⟨rfl, rfl⟩

/-- Witness for the C8 theorem: a Member updates their own task,
providing only a new title and stage; the merged row keeps the stored
description and assignee. -/
theorem updateTask_partial_merge_witness :
    ((updateTask ⟨[⟨"b1", "n", "d", "u0"⟩], [⟨"b1", "u1", "Member"⟩], []⟩
        ⟨[⟨"t1", "b1", "old", "keepdesc", "u1", "keepassignee", "To Do",
          "T0", "T0"⟩]⟩
        "u1" "t1" ⟨"new", "", "", "Done"⟩ "T1").1.isOk = true) ∧
    ((updateTask ⟨[⟨"b1", "n", "d", "u0"⟩], [⟨"b1", "u1", "Member"⟩], []⟩
        ⟨[⟨"t1", "b1", "old", "keepdesc", "u1", "keepassignee", "To Do",
          "T0", "T0"⟩]⟩
        "u1" "t1" ⟨"new", "", "", "Done"⟩ "T1").2.tasks =
      [⟨"t1", "b1", "new", "keepdesc", "u1", "keepassignee", "Done",
        "T0", "T1"⟩]) := by
  have h := updateTask_partial_merge
    ⟨[⟨"b1", "n", "d", "u0"⟩], [⟨"b1", "u1", "Member"⟩], []⟩
    ⟨[⟨"t1", "b1", "old", "keepdesc", "u1", "keepassignee", "To Do",
      "T0", "T0"⟩]⟩
    "u1" "t1" "T1" ⟨"new", "", "", "Done"⟩
    ⟨"t1", "b1", "old", "keepdesc", "u1", "keepassignee", "To Do", "T0", "T0"⟩
    "Member" (by rfl) (by rfl) (Or.inr rfl) (by tauto)
  refine ⟨h.1, ?_⟩
  rw [h.2]
  rfl

theorem countP_split {α : Type} (l : List α) (p q : α → Bool) :
    l.countP p = l.countP (fun a => p a && q a) +
      l.countP (fun a => p a && !q a) := by
  induction l with
  | nil => rfl
  | cons a l ih =>
    simp only [List.countP_cons]
    by_cases hp : p a = true <;> by_cases hq : q a = true <;>
      simp [hp, hq, ih] <;> omega

theorem countKey_le_one {ms : List MemberRow} (h : KeysNodup ms)
    (b t : String) :
    ms.countP (fun m => m.boardId == b && m.userId == t) ≤ 1 := by
  induction ms with
  | nil => simp
  | cons a l ih =>
    rw [KeysNodup, List.pairwise_cons] at h
    rw [List.countP_cons]
    by_cases ha : (a.boardId == b && a.userId == t) = true
    · have hz : l.countP (fun m => m.boardId == b && m.userId == t) = 0 := by
        rw [List.countP_eq_zero]
        intro m hm hc
        simp only [Bool.and_eq_true, beq_iff_eq] at ha hc
        exact h.1 m hm ⟨ha.1.trans hc.1.symm, ha.2.trans hc.2.symm⟩
      simp [ha, hz]
    · have := ih h.2
      simp only [ha, Bool.false_eq_true, if_false]
      omega

theorem removeUser_preserves {db : BoardDB} (hk : KeysNodup db.members)
    {bid : String} (h1 : 1 ≤ countAdmins db.members bid)
    (uid boardId userId : String) :
    KeysNodup (removeUser db uid boardId userId).2.members ∧
    1 ≤ countAdmins (removeUser db uid boardId userId).2.members bid := by
  unfold removeUser
  split
  · exact ⟨hk, h1⟩
  rename_i role hactor
  split
  · exact ⟨hk, h1⟩
  split
  · exact ⟨hk, h1⟩
  split
  · exact ⟨hk, h1⟩
  rename_i targetRole htarget
  split
  · exact ⟨hk, h1⟩
  rename_i hFP
  refine ⟨List.Pairwise.sublist (List.filter_sublist _) hk, ?_⟩
  by_cases hbb : boardId = bid
  · subst hbb
    by_cases htr : targetRole = "Admin"
    · have h2 : ¬ countAdmins db.members boardId ≤ 1 := fun hle => hFP ⟨htr, hle⟩
      rw [countAdmins_def, List.countP_filter]
      have hsplit := countP_split db.members (isAdminOf boardId)
        (fun m => m.boardId == boardId && m.userId == userId)
      have hle1 := countKey_le_one hk boardId userId
      have hcong : db.members.countP (fun m =>
          isAdminOf boardId m &&
            decide ¬ (m.boardId == boardId && m.userId == userId) = true) =
          db.members.countP (fun m => isAdminOf boardId m &&
            !(m.boardId == boardId && m.userId == userId)) := by
        apply List.countP_congr
        intro m hm
        by_cases hc : (m.boardId == boardId && m.userId == userId) = true <;>
          simp [hc]
      rw [hcong]
      have hband : db.members.countP (fun m => isAdminOf boardId m &&
          (m.boardId == boardId && m.userId == userId)) ≤ 1 := by
        calc db.members.countP (fun m => isAdminOf boardId m &&
            (m.boardId == boardId && m.userId == userId))
            ≤ db.members.countP (fun m =>
              m.boardId == boardId && m.userId == userId) := by
              apply List.countP_mono_left
              intro m hm hq
              exact (Bool.and_eq_true _ _ |>.mp hq).2
          _ ≤ 1 := hle1
      rw [countAdmins_def] at h2
      omega
    · rw [countAdmins_filter_eq ?_]
      · exact h1
      · intro m hm hmb hma
        simp only [decide_eq_true_eq, Bool.and_eq_true, beq_iff_eq, not_and]
        intro hmb2 hmu
        obtain ⟨r, hr, hrb, hru, hrr⟩ := findRole_mem htarget
        have hmr : m = r :=
          keysNodup_unique hk hm hr ⟨hmb2.trans hrb.symm, hmu.trans hru.symm⟩
        exact htr (hrr ▸ hmr ▸ hma)
  · rw [countAdmins_filter_eq ?_]
    · exact h1
    · intro m hm hmb hma
      simp only [decide_eq_true_eq, Bool.and_eq_true, beq_iff_eq, not_and]
      intro hmb2
      exact absurd (hmb2.symm.trans hmb) hbb

theorem applyRemoveUsers_ge_one {db : BoardDB} (hk : KeysNodup db.members)
    {bid : String} (h1 : 1 ≤ countAdmins db.members bid)
    (calls : List (String × String × String)) :
    1 ≤ countAdmins (applyRemoveUsers db calls).members bid := by
  induction calls generalizing db with
  | nil => exact h1
  | cons c rest ih =>
    have hp := removeUser_preserves hk h1 c.1 c.2.1 c.2.2
    exact ih hp.1 hp.2

/-- C1 (amended): once board creation succeeds the new board has at
least one Admin membership row, and — when the membership keys are
unique, as the table's composite primary key guarantees — the count
stays at least one under any sequence of `RemoveUser` calls; a
`RemoveUser` call whose target is an Admin while the board has exactly
one Admin always fails and leaves the store unchanged, with
`FailedPrecondition` when the acting user is a member who is an Admin
or the target themselves, and `PermissionDenied` otherwise. -/
theorem admin_at_least_one (db : BoardDB) (bid : String)
    (hk : KeysNodup db.members) :
    (∀ uid p newId, p.name ≠ "" →
      1 ≤ countAdmins (createBoard db uid p newId).2.members newId) ∧
    (1 ≤ countAdmins db.members bid →
      ∀ calls, 1 ≤ countAdmins (applyRemoveUsers db calls).members bid) ∧
    (∀ uid tgt, findRole db bid tgt = some "Admin" →
      countAdmins db.members bid = 1 →
      (removeUser db uid bid tgt).2 = db ∧
      (∀ r, findRole db bid uid = some r → r = "Admin" ∨ uid = tgt →
        (removeUser db uid bid tgt).1 =
          .error ⟨.failedPrecondition, "cannot remove the last Admin"⟩) ∧
      ((∀ r, findRole db bid uid = some r → r ≠ "Admin" ∧ uid ≠ tgt) →
        ∃ e, (removeUser db uid bid tgt).1 = .error e ∧
          e.code = .permissionDenied)) := by
  refine ⟨?_, fun h1 calls => applyRemoveUsers_ge_one hk h1 calls, ?_⟩
  · intro uid p newId hname
    unfold createBoard
    rw [if_neg hname]
    simp only
    rw [countAdmins_append_single]
    simp
  · intro uid tgt htgt hone
    have hmem : db.members.any
        (fun m => m.boardId == bid && m.userId == tgt) = true := by
      obtain ⟨r, hr, hrb, hru, _⟩ := findRole_mem htgt
      rw [List.any_eq_true]
      exact ⟨r, hr, by simp [hrb, hru]⟩
    unfold removeUser
    split
    · rename_i hact
      refine ⟨rfl, ?_, fun hno => ⟨_, rfl, rfl⟩⟩
      intro r hr
      rw [hact] at hr
      exact absurd hr (by simp)
    rename_i role hact
    split
    · rename_i hauth
      refine ⟨rfl, ?_, fun hno => ⟨_, rfl, rfl⟩⟩
      intro r hr hor
      rw [hact] at hr
      injection hr with he
      subst he
      rcases hor with h | h
      · exact absurd h hauth.1
      · exact absurd h hauth.2
    rename_i hauth
    split
    · rename_i h2
      rw [htgt] at h2
      exact absurd h2 (by simp)
    rename_i targetRole h2
    rw [htgt] at h2
    injection h2 with he
    rw [if_pos ⟨he.symm, le_of_eq hone⟩]
    refine ⟨rfl, fun _ _ _ => rfl, ?_⟩
    intro hno
    exact absurd (hno role hact) hauth

/-- C1 counterexample: on a board whose sole member is its one Admin
`a`, a `RemoveUser` call by the non-member `x` targeting `a` — a call
whose target is an Admin while the board has exactly one Admin — fails
with `PermissionDenied`, not `FailedPrecondition` as the claim states
(the ledger is nevertheless unchanged). -/
theorem removeUser_last_admin_not_always_failedPrecondition :
    findRole ⟨[⟨"b1", "n", "d", "a"⟩], [⟨"b1", "a", "Admin"⟩], []⟩
        "b1" "a" = some "Admin" ∧
    countAdmins [⟨"b1", "a", "Admin"⟩] "b1" = 1 ∧
    (removeUser ⟨[⟨"b1", "n", "d", "a"⟩], [⟨"b1", "a", "Admin"⟩], []⟩
        "x" "b1" "a").1 =
      .error ⟨.permissionDenied,
        "access denied: not a member or insufficient permissions"⟩ ∧
    (removeUser ⟨[⟨"b1", "n", "d", "a"⟩], [⟨"b1", "a", "Admin"⟩], []⟩
        "x" "b1" "a").1 ≠
      .error ⟨.failedPrecondition, "cannot remove the last Admin"⟩ := by
  refine ⟨rfl, rfl, rfl, fun h => ?_⟩
  have h2 : Err.mk .permissionDenied
      "access denied: not a member or insufficient permissions" =
      Err.mk .failedPrecondition "cannot remove the last Admin" := by
    injection h
  exact absurd h2 (by decide)

/-- Witness for the C1 theorem: on the concrete one-Admin board, the
sole Admin removing themselves gets `FailedPrecondition`. -/
theorem admin_at_least_one_witness :
    (removeUser ⟨[⟨"b1", "n", "d", "a"⟩], [⟨"b1", "a", "Admin"⟩], []⟩
        "a" "b1" "a").1 =
      .error ⟨.failedPrecondition, "cannot remove the last Admin"⟩ :=
  ((admin_at_least_one ⟨[⟨"b1", "n", "d", "a"⟩], [⟨"b1", "a", "Admin"⟩], []⟩
      "b1" (List.pairwise_singleton _ _)).2.2 "a" "a" rfl rfl).2.1
    "Admin" rfl (Or.inl rfl)

theorem findRole_none_iff {db : BoardDB} {bid u : String} :
    findRole db bid u = none ↔
      db.members.any (fun m => m.boardId == bid && m.userId == u) = false := by
  simp [findRole, Option.map_eq_none', List.find?_eq_none, List.any_eq_false]

theorem notPDcond {db : BoardDB} {bid uid tgt role : String}
    (hact : findRole db bid uid = some role)
    (hauth : ¬ (role ≠ "Admin" ∧ uid ≠ tgt)) :
    ¬ (findRole db bid uid = none ∨
      ∃ r, findRole db bid uid = some r ∧ r ≠ "Admin" ∧ uid ≠ tgt) := by
  rintro (h | ⟨r, hr, hne⟩)
  · rw [hact] at h
    exact Option.noConfusion h
  · rw [hact] at hr
    injection hr with he
    subst he
    exact hauth hne

/-- C7 (amended): `RemoveUser` fails with `PermissionDenied` exactly when
the acting user is not a member of the board, or is a member who is
neither an Admin nor the user being removed; when the acting user is an
authorized member (Admin or the target themselves) it fails with
`NotFound` if the target is not a member, and with `FailedPrecondition`
if the target is the board's last remaining Admin. -/
theorem removeUser_error_codes (db : BoardDB) (uid bid tgt : String) :
    ((∃ e, (removeUser db uid bid tgt).1 = .error e ∧
        e.code = .permissionDenied) ↔
      (findRole db bid uid = none ∨
        ∃ r, findRole db bid uid = some r ∧ r ≠ "Admin" ∧ uid ≠ tgt)) ∧
    (∀ r, findRole db bid uid = some r → (r = "Admin" ∨ uid = tgt) →
      findRole db bid tgt = none →
      (removeUser db uid bid tgt).1 =
        .error ⟨.notFound, "user not a member of this board"⟩) ∧
    (∀ r, findRole db bid uid = some r → (r = "Admin" ∨ uid = tgt) →
      findRole db bid tgt = some "Admin" →
      countAdmins db.members bid = 1 →
      (removeUser db uid bid tgt).1 =
        .error ⟨.failedPrecondition, "cannot remove the last Admin"⟩) := by
  unfold removeUser
  split
  · rename_i hact
    refine ⟨⟨fun _ => Or.inl hact, fun _ => ⟨_, rfl, rfl⟩⟩, ?_, ?_⟩
    · intro r hr
      rw [hact] at hr
      exact absurd hr (by simp)
    · intro r hr
      rw [hact] at hr
      exact absurd hr (by simp)
  rename_i role hact
  split
  · rename_i hauth
    refine ⟨⟨fun _ => Or.inr ⟨role, hact, hauth⟩, fun _ => ⟨_, rfl, rfl⟩⟩, ?_, ?_⟩
    · intro r hr hor
      rw [hact] at hr
      injection hr with he
      subst he
      rcases hor with h | h
      · exact absurd h hauth.1
      · exact absurd h hauth.2
    · intro r hr hor
      rw [hact] at hr
      injection hr with he
      subst he
      rcases hor with h | h
      · exact absurd h hauth.1
      · exact absurd h hauth.2
  rename_i hauth
  split
  · rename_i hnf
    have hfalse : db.members.any
        (fun m => m.boardId == bid && m.userId == tgt) = false :=
      Bool.eq_false_iff.mpr hnf
    refine ⟨?_, fun r hr hor htn => rfl, ?_⟩
    · constructor
      · rintro ⟨e, he, hc⟩
        injection he with he2
        rw [← he2] at hc
        exact absurd hc (by decide)
      · intro h
        exact absurd h (notPDcond hact hauth)
    · intro r hr hor hts
      rw [findRole_none_iff.mpr hfalse] at hts
      exact absurd hts (by simp)
  rename_i hnf
  have htrue : db.members.any
      (fun m => m.boardId == bid && m.userId == tgt) = true := by
    by_contra hc
    exact hnf (Bool.eq_false_iff.mpr hc ▸ (by simp))
  split
  · rename_i h2
    have := findRole_none_iff.mp h2
    rw [htrue] at this
    exact absurd this (by simp)
  rename_i targetRole h2
  split
  · rename_i hfp
    refine ⟨?_, ?_, fun r hr hor hts hcount => rfl⟩
    · constructor
      · rintro ⟨e, he, hc⟩
        injection he with he2
        rw [← he2] at hc
        exact absurd hc (by decide)
      · intro h
        exact absurd h (notPDcond hact hauth)
    · intro r hr hor htn
      rw [h2] at htn
      exact absurd htn (by simp)
  rename_i hfp
  refine ⟨?_, ?_, ?_⟩
  · constructor
    · rintro ⟨e, he, hc⟩
      exact Except.noConfusion he
    · intro h
      exact absurd h (notPDcond hact hauth)
  · intro r hr hor htn
    rw [h2] at htn
    exact absurd htn (by simp)
  · intro r hr hor hts hcount
    rw [h2] at hts
    injection hts with he
    exact absurd ⟨he, le_of_eq hcount⟩ hfp

/-- C7 counterexample: a user who is not a member of the board removing
themselves is the user being removed, so by the claim the call must not
be `PermissionDenied` (it should fall through to `NotFound`), yet the
code returns `PermissionDenied` from its first membership check. -/
theorem removeUser_self_nonmember_permissionDenied :
    (removeUser ⟨[⟨"b1", "n", "d", "a"⟩], [⟨"b1", "a", "Admin"⟩], []⟩
        "x" "b1" "x").1 =
      .error ⟨.permissionDenied,
        "access denied: not a member or insufficient permissions"⟩ ∧
    ∀ e, (removeUser ⟨[⟨"b1", "n", "d", "a"⟩], [⟨"b1", "a", "Admin"⟩], []⟩
        "x" "b1" "x").1 = .error e → e.code ≠ .notFound := by
  refine ⟨rfl, ?_⟩
  intro e he
  injection he with h2
  rw [← h2]
  decide

/-- Witness for the C7 theorem: the Admin removing a non-member gets
`NotFound`. -/
theorem removeUser_error_codes_witness :
    (removeUser ⟨[⟨"b1", "n", "d", "a"⟩], [⟨"b1", "a", "Admin"⟩], []⟩
        "a" "b1" "z").1 =
      .error ⟨.notFound, "user not a member of this board"⟩ :=
  (removeUser_error_codes ⟨[⟨"b1", "n", "d", "a"⟩], [⟨"b1", "a", "Admin"⟩], []⟩
      "a" "b1" "z").2.1 "Admin" rfl (Or.inl rfl) rfl

/-- C3 (amended): after a first successful resolution of a pending
invitation, a second accept-or-reject call on the same invitation id by
the invitation's invitee returns `FailedPrecondition` and leaves the
entire board store — the membership ledger included — unchanged; a
second call for which no invitation addressed to the caller carries the
requested id (in particular one by any other user) returns `NotFound`,
also leaving the store unchanged. -/
theorem handleInvitation_exactly_once (db : BoardDB) (uid : String)
    (p q : HandleInvitationParams) (inv : Invitation)
    (hfind : db.invitations.find?
      (fun i => i.id == p.invitationId && i.inviteeId == uid) = some inv)
    (hpend : inv.status = "Pending")
    (hid : p.invitationId ≠ "")
    (hact : p.action = "Accepted" ∨ p.action = "Rejected")
    (hqid : q.invitationId = p.invitationId)
    (hqact : q.action = "Accepted" ∨ q.action = "Rejected") :
    (handleInvitation db uid p).1 = .ok inv.boardId ∧
    (handleInvitation (handleInvitation db uid p).2 uid q).1 =
      .error ⟨.failedPrecondition, "invitation already processed"⟩ ∧
    (handleInvitation (handleInvitation db uid p).2 uid q).2 =
      (handleInvitation db uid p).2 ∧
    (∀ uid2 q2, q2.invitationId ≠ "" →
      (q2.action = "Accepted" ∨ q2.action = "Rejected") →
      (handleInvitation db uid p).2.invitations.find?
        (fun i => i.id == q2.invitationId && i.inviteeId == uid2) = none →
      (handleInvitation (handleInvitation db uid p).2 uid2 q2).1 =
        .error ⟨.notFound, "invitation not found or not for this user"⟩ ∧
      (handleInvitation (handleInvitation db uid p).2 uid2 q2).2 =
        (handleInvitation db uid p).2) := by
  have hane : p.action ≠ "" := by
    rcases hact with ha | ha <;> rw [ha] <;> decide
  have h1 : ¬ (p.invitationId = "" ∨ p.action = "") := by
    rintro (h | h)
    · exact hid h
    · exact hane h
  have h2 : ¬ (p.action ≠ "Accepted" ∧ p.action ≠ "Rejected") := by tauto
  have hnp : ¬ inv.status ≠ "Pending" := fun h => h hpend
  obtain ⟨ms, hA⟩ : ∃ ms, handleInvitation db uid p =
      (.ok inv.boardId, ⟨db.boards, ms, db.invitations.map (fun i =>
        if i.id == p.invitationId then { i with status := p.action }
        else i)⟩) := by
    refine ⟨if p.action = "Accepted" then
      insertMemberNoConflict db.members ⟨inv.boardId, uid, inv.role⟩
      else db.members, ?_⟩
    unfold handleInvitation handleInvitationF
    rw [if_neg h1, if_neg h2]
    simp only [hfind]
    rw [if_neg hnp, if_neg (by simp), if_neg (by simp)]
    split <;> rfl
  have hp1 : (inv.id == p.invitationId) = true := by
    have hp := List.find?_some hfind
    exact (Bool.and_eq_true _ _ |>.mp hp).1
  have hstat : p.action ≠ "Pending" := by
    rcases hact with ha | ha <;> rw [ha] <;> decide
  rw [hA]
  have hq1 : ¬ (q.invitationId = "" ∨ q.action = "") := by
    rintro (h | h)
    · exact hid (hqid ▸ h)
    · rcases hqact with ha | ha <;> rw [ha] at h <;> exact absurd h (by decide)
  have hq2 : ¬ (q.action ≠ "Accepted" ∧ q.action ≠ "Rejected") := by tauto
  have hcomp : ((fun i : Invitation =>
      i.id == q.invitationId && i.inviteeId == uid) ∘ (fun i =>
        if i.id == p.invitationId then { i with status := p.action }
        else i)) =
      (fun i : Invitation => i.id == q.invitationId && i.inviteeId == uid) := by
    funext i
    simp only [Function.comp_apply]
    split <;> rfl
  have hfind2 : (db.invitations.map (fun i =>
      if i.id == p.invitationId then { i with status := p.action }
      else i)).find? (fun i => i.id == q.invitationId && i.inviteeId == uid) =
      some { inv with status := p.action } := by
    rw [List.find?_map, hcomp, hqid, hfind, Option.map_some']
    rw [if_pos hp1]
  refine ⟨rfl, ?_, ?_, ?_⟩
  · unfold handleInvitation handleInvitationF
    rw [if_neg hq1, if_neg hq2]
    simp only [hfind2]
    rw [if_pos hstat]
  · unfold handleInvitation handleInvitationF
    rw [if_neg hq1, if_neg hq2]
    simp only [hfind2]
    rw [if_pos hstat]
  · intro uid2 q2 hq2id hq2act hnone
    have hq21 : ¬ (q2.invitationId = "" ∨ q2.action = "") := by
      rintro (h | h)
      · exact hq2id h
      · rcases hq2act with ha | ha <;> rw [ha] at h <;> exact absurd h (by decide)
    have hq22 : ¬ (q2.action ≠ "Accepted" ∧ q2.action ≠ "Rejected") := by tauto
    simp only at hnone
    constructor <;>
      · unfold handleInvitation handleInvitationF
        rw [if_neg hq21, if_neg hq22]
        simp only [hnone]

/-- C3 counterexample: after the invitee `c` accepts invitation `i1`, a
second resolution call on the same invitation id by a different user
`d` returns `NotFound`, not `FailedPrecondition` as the claim states
for any second resolution call on that id. -/
theorem handleInvitation_second_call_other_user_notFound :
    ((handleInvitation ⟨[], [], [⟨"i1", "b1", "a", "c", "Member", "Pending"⟩]⟩
        "c" ⟨"i1", "Accepted"⟩).1 = .ok "b1") ∧
    ((handleInvitation
        (handleInvitation ⟨[], [], [⟨"i1", "b1", "a", "c", "Member", "Pending"⟩]⟩
          "c" ⟨"i1", "Accepted"⟩).2 "d" ⟨"i1", "Accepted"⟩).1 =
      .error ⟨.notFound, "invitation not found or not for this user"⟩) ∧
    ((handleInvitation
        (handleInvitation ⟨[], [], [⟨"i1", "b1", "a", "c", "Member", "Pending"⟩]⟩
          "c" ⟨"i1", "Accepted"⟩).2 "d" ⟨"i1", "Accepted"⟩).1 ≠
      .error ⟨.failedPrecondition, "invitation already processed"⟩) := by
  refine ⟨rfl, rfl, fun h => ?_⟩
  have h2 : Err.mk .notFound "invitation not found or not for this user" =
      Err.mk .failedPrecondition "invitation already processed" := by
    injection h
  exact absurd h2 (by decide)

/-- Witness for the C3 theorem: invitee `c` accepts `i1`, then tries to
reject it; the second call gets `FailedPrecondition`. -/
theorem handleInvitation_exactly_once_witness :
    (handleInvitation
        (handleInvitation ⟨[], [], [⟨"i1", "b1", "a", "c", "Member", "Pending"⟩]⟩
          "c" ⟨"i1", "Accepted"⟩).2 "c" ⟨"i1", "Rejected"⟩).1 =
      .error ⟨.failedPrecondition, "invitation already processed"⟩ :=
  (handleInvitation_exactly_once
    ⟨[], [], [⟨"i1", "b1", "a", "c", "Member", "Pending"⟩]⟩ "c"
    ⟨"i1", "Accepted"⟩ ⟨"i1", "Rejected"⟩
    ⟨"i1", "b1", "a", "c", "Member", "Pending"⟩
    rfl rfl (by decide) (Or.inl rfl) rfl (Or.inr rfl)).2.1

/-- C4 (amended): on reject only the invitation's status changes and
the membership ledger is untouched; on accept the membership insert is
performed before the status update, and when both writes succeed the
entry is inserted and the invitation marked. The two writes are not
atomic, however: when the status update fails after the insert
succeeded, `HandleInvitation` returns an `Internal` error with the
membership entry already persisted and the invitation still Pending. -/
theorem handleInvitation_write_effects (db : BoardDB) (uid : String)
    (p : HandleInvitationParams) (inv : Invitation)
    (hfind : db.invitations.find?
      (fun i => i.id == p.invitationId && i.inviteeId == uid) = some inv)
    (hpend : inv.status = "Pending")
    (hid : p.invitationId ≠ "") :
    (p.action = "Rejected" →
      handleInvitation db uid p =
        (.ok inv.boardId,
         { db with invitations := db.invitations.map (fun i =>
             if i.id == p.invitationId then { i with status := p.action }
             else i) })) ∧
    (p.action = "Accepted" →
      (handleInvitation db uid p =
        (.ok inv.boardId,
         { db with
           members := (insertMemberNoConflict db.members
             ⟨inv.boardId, uid, inv.role⟩),
           invitations := (db.invitations.map (fun i =>
             if i.id == p.invitationId then { i with status := p.action }
             else i)) })) ∧
      (handleInvitationF db uid p false true =
        (.error ⟨.internal, "failed to update invitation status"⟩,
         { db with members := (insertMemberNoConflict db.members
             ⟨inv.boardId, uid, inv.role⟩) }))) := by
  have hnp : ¬ inv.status ≠ "Pending" := fun h => h hpend
  constructor
  · intro ha
    have h1 : ¬ (p.invitationId = "" ∨ p.action = "") := by
      rintro (h | h)
      · exact hid h
      · rw [ha] at h
        exact absurd h (by decide)
    have h2 : ¬ (p.action ≠ "Accepted" ∧ p.action ≠ "Rejected") := by tauto
    unfold handleInvitation handleInvitationF
    rw [if_neg h1, if_neg h2]
    simp only [hfind]
    rw [if_neg hnp, if_neg (by simp), if_neg (by simp),
      if_neg (by rw [ha]; decide)]
  · intro ha
    have h1 : ¬ (p.invitationId = "" ∨ p.action = "") := by
      rintro (h | h)
      · exact hid h
      · rw [ha] at h
        exact absurd h (by decide)
    have h2 : ¬ (p.action ≠ "Accepted" ∧ p.action ≠ "Rejected") := by tauto
    constructor
    · unfold handleInvitation handleInvitationF
      rw [if_neg h1, if_neg h2]
      simp only [hfind]
      rw [if_neg hnp, if_neg (by simp), if_neg (by simp), if_pos ha]
    · unfold handleInvitationF
      rw [if_neg h1, if_neg h2]
      simp only [hfind]
      rw [if_neg hnp, if_neg (by simp [ha]), if_pos (by simp), if_pos ha]

/-- C4 counterexample: accepting a pending invitation with the
membership insert succeeding and the status update failing produces
exactly the outcome the claim rules out — `HandleInvitation` returns an
error while the membership entry has been persisted and the invitation
is still Pending, not Accepted. -/
theorem handleInvitation_not_atomic :
    ((handleInvitationF ⟨[], [], [⟨"i1", "b1", "a", "c", "Member", "Pending"⟩]⟩
        "c" ⟨"i1", "Accepted"⟩ false true).1 =
      .error ⟨.internal, "failed to update invitation status"⟩) ∧
    (⟨"b1", "c", "Member"⟩ ∈
      (handleInvitationF ⟨[], [], [⟨"i1", "b1", "a", "c", "Member", "Pending"⟩]⟩
        "c" ⟨"i1", "Accepted"⟩ false true).2.members) ∧
    ((handleInvitationF ⟨[], [], [⟨"i1", "b1", "a", "c", "Member", "Pending"⟩]⟩
        "c" ⟨"i1", "Accepted"⟩ false true).2.invitations =
      [⟨"i1", "b1", "a", "c", "Member", "Pending"⟩]) := by
  refine ⟨rfl, ?_, rfl⟩
  decide

/-- Witness for the C4 theorem: the concrete accept with both writes
succeeding inserts the Member row and marks the invitation Accepted. -/
theorem handleInvitation_write_effects_witness :
    handleInvitation ⟨[], [], [⟨"i1", "b1", "a", "c", "Member", "Pending"⟩]⟩
        "c" ⟨"i1", "Accepted"⟩ =
      (.ok "b1",
       ⟨[], [⟨"b1", "c", "Member"⟩],
        [⟨"i1", "b1", "a", "c", "Member", "Accepted"⟩]⟩) := by
  have h := ((handleInvitation_write_effects
    ⟨[], [], [⟨"i1", "b1", "a", "c", "Member", "Pending"⟩]⟩ "c"
    ⟨"i1", "Accepted"⟩ ⟨"i1", "b1", "a", "c", "Member", "Pending"⟩
    rfl rfl (by decide)).2 rfl).1
  rw [h]
  rfl

theorem viewerScenario_reachable : Reachable viewerScenario :=
  .tail (.tail (.tail (.tail (.tail (.tail (.tail .refl
    (Step.createBoard initSys "a" ⟨"B", ""⟩ "b1" (by decide)))
    (Step.inviteUser _ "a" ⟨"b1", "v", "Member"⟩ "i1" (by decide)))
    (Step.handleInvitation _ "v" ⟨"i1", "Accepted"⟩))
    (Step.createTask _ "v" ⟨"b1", "T", "", "", ""⟩ "t1" "T0" (by decide)))
    (Step.removeUser _ "a" "b1" "v"))
    (Step.inviteUser _ "a" ⟨"b1", "v", "Viewer"⟩ "i2" (by decide)))
    (Step.handleInvitation _ "v" ⟨"i2", "Accepted"⟩)

/-- C2 counterexample: in the reachable state of `viewerScenario` the
user `v` has current role Viewer on board `b1`, is the original creator
of task `t1` after the earlier membership changes, and both `UpdateTask`
and `DeleteTask` by `v` on `t1` succeed. -/
theorem viewer_creator_update_succeeds :
    Reachable viewerScenario ∧
    checkMembership viewerScenario.bdb "b1" "v" = (true, "Viewer") ∧
    (viewerScenario.tdb.tasks.find? (fun t => t.id == "t1")).map
        (fun t => t.createdBy) = some "v" ∧
    (updateTask viewerScenario.bdb viewerScenario.tdb "v" "t1"
        ⟨"NT", "", "", ""⟩ "T1").1.isOk = true ∧
    (deleteTask viewerScenario.bdb viewerScenario.tdb "v" "t1").1.isOk
      = true :=
  ⟨viewerScenario_reachable, rfl, rfl, rfl, rfl⟩

/-- C2 (amended): a user whose current role on the board is Viewer can
never get a success from `CreateTask`, and fails `UpdateTask` and
`DeleteTask` with `PermissionDenied` whenever they are not the task's
original creator; in each failing case the task store is unchanged.
(The creator exception is real: the code admits Admin-or-creator, with
the role re-derived at call time.) -/
theorem viewer_task_enforcement (bdb : BoardDB) (tdb : TaskDB)
    (uid : String) :
    (∀ p newId now, checkMembership bdb p.boardId uid = (true, "Viewer") →
      (createTask bdb tdb uid p newId now).1.isOk = false ∧
      (createTask bdb tdb uid p newId now).2 = tdb) ∧
    (∀ taskId p now t, tdb.tasks.find? (fun x => x.id == taskId) = some t →
      checkMembership bdb t.boardId uid = (true, "Viewer") →
      t.createdBy ≠ uid →
      (updateTask bdb tdb uid taskId p now).1 =
        .error ⟨.permissionDenied,
          "access denied: only Admin or creator can update task"⟩ ∧
      (updateTask bdb tdb uid taskId p now).2 = tdb) ∧
    (∀ taskId t, tdb.tasks.find? (fun x => x.id == taskId) = some t →
      checkMembership bdb t.boardId uid = (true, "Viewer") →
      t.createdBy ≠ uid →
      (deleteTask bdb tdb uid taskId).1 =
        .error ⟨.permissionDenied,
          "access denied: only Admin or creator can delete task"⟩ ∧
      (deleteTask bdb tdb uid taskId).2 = tdb) := by
  refine ⟨?_, ?_, ?_⟩
  · intro p newId now hmem
    unfold createTask
    split
    · exact ⟨rfl, rfl⟩
    · simp only [hmem]
      rw [if_pos trivial]
      exact ⟨rfl, rfl⟩
  · intro taskId p now t hfind hmem hcb
    unfold updateTask
    rw [hfind]
    simp only [hmem]
    rw [if_neg (by simp), if_pos ⟨by decide, hcb⟩]
    exact ⟨rfl, rfl⟩
  · intro taskId t hfind hmem hcb
    unfold deleteTask
    rw [hfind]
    simp only [hmem]
    rw [if_neg (by simp), if_pos ⟨by decide, hcb⟩]
    exact ⟨rfl, rfl⟩

/-- Witness for the C2 theorem: in the `viewerScenario` state the
Viewer `v` cannot create a task, and cannot update a task created by
`a`. -/
theorem viewer_task_enforcement_witness :
    ((createTask viewerScenario.bdb viewerScenario.tdb "v"
        ⟨"b1", "X", "", "", ""⟩ "t9" "T2").1.isOk = false) ∧
    ((createTask viewerScenario.bdb viewerScenario.tdb "v"
        ⟨"b1", "X", "", "", ""⟩ "t9" "T2").2 = viewerScenario.tdb) :=
  (viewer_task_enforcement viewerScenario.bdb viewerScenario.tdb "v").1
    ⟨"b1", "X", "", "", ""⟩ "t9" "T2" rfl

theorem cascadeScenario_reachable : Reachable cascadeScenario :=
  .tail (.tail (.tail (.tail (.tail (.tail .refl
    (Step.createBoard initSys "a" ⟨"B", ""⟩ "b1" (by decide)))
    (Step.inviteUser _ "a" ⟨"b1", "c", "Member"⟩ "i1" (by decide)))
    (Step.handleInvitation _ "c" ⟨"i1", "Accepted"⟩))
    (Step.createTask _ "c" ⟨"b1", "T", "", "", ""⟩ "t1" "T0" (by decide)))
    (Step.removeBoard _ "a" "b1"))
    (Step.deliver _ "b1" (by decide))

/-- C6 counterexample: in the end-to-end scenario — Member `c` creates
task `t1` on board `b1`, Admin `a` deletes `b1`, the cascade event is
delivered — the subsequent `ListTasks(b1)` call by `a` does not return
an empty list: it fails with `PermissionDenied`, because deleting the
board also cascaded away the membership roster. -/
theorem cascade_listTasks_not_empty_list :
    Reachable cascadeScenario ∧
    (createTask cascadeMid.bdb cascadeMid.tdb "c" ⟨"b1", "T2", "", "", ""⟩
        "t2" "T1").1.isOk = true ∧
    cascadeScenario.tdb.tasks = [] ∧
    listTasks cascadeScenario.bdb cascadeScenario.tdb "a" "b1"
        ⟨"", 10, 0⟩ =
      .error ⟨.permissionDenied,
        "access denied: must be a board member to list tasks"⟩ ∧
    ∀ r, listTasks cascadeScenario.bdb cascadeScenario.tdb "a" "b1"
        ⟨"", 10, 0⟩ ≠ .ok r := by
  refine ⟨cascadeScenario_reachable, rfl, rfl, rfl, ?_⟩
  intro r h
  rw [show listTasks cascadeScenario.bdb cascadeScenario.tdb "a" "b1"
      ⟨"", 10, 0⟩ =
    .error ⟨.permissionDenied,
      "access denied: must be a board member to list tasks"⟩ from rfl] at h
  exact Except.noConfusion h

/-- C6 (amended): when an Admin deletes a board and the `BoardDeleted`
event is delivered to the task service, zero tasks of that board remain
in the task store; a subsequent `ListTasks` call for that board — by
the deleting Admin or anyone else — fails with `PermissionDenied`,
since the board deletion also cascaded away the membership roster. -/
theorem boardDelete_cascade_effects (bdb : BoardDB) (tdb : TaskDB)
    (uid boardId : String)
    (hrole : findRole bdb boardId uid = some "Admin")
    (hexists : bdb.boards.any (fun b => b.id == boardId) = true) :
    (removeBoard bdb uid boardId).1 = .ok "Board deleted successfully" ∧
    (removeBoard bdb uid boardId).2.2 = some boardId ∧
    ((handleBoardDeleteEvent tdb boardId).2.tasks.filter
      (fun t => t.boardId == boardId) = []) ∧
    (∀ u p, listTasks (removeBoard bdb uid boardId).2.1
        (handleBoardDeleteEvent tdb boardId).2 u boardId p =
      .error ⟨.permissionDenied,
        "access denied: must be a board member to list tasks"⟩) := by
  have hnr : ¬ findRole bdb boardId uid ≠ some "Admin" := fun h => h hrole
  have hne : ¬ ¬ bdb.boards.any (fun b => b.id == boardId) = true :=
    fun h => h hexists
  refine ⟨?_, ?_, ?_, ?_⟩
  · unfold removeBoard
    rw [if_neg hnr, if_neg hne]
  · unfold removeBoard
    rw [if_neg hnr, if_neg hne]
  · unfold handleBoardDeleteEvent
    simp only
    rw [List.filter_eq_nil_iff]
    intro t ht
    rw [List.mem_filter] at ht
    have h2 := ht.2
    simp only [decide_eq_true_eq] at h2
    simpa using h2
  · intro u p
    have hnone : findRole (removeBoard bdb uid boardId).2.1 boardId u = none := by
      unfold removeBoard
      rw [if_neg hnr, if_neg hne]
      simp only
      rw [findRole_none_iff]
      unfold deleteBoardCascade
      simp only
      rw [List.any_eq_false]
      intro m hm
      rw [List.mem_filter, decide_eq_true_eq, beq_iff_eq] at hm
      simp only [Bool.and_eq_true, beq_iff_eq, not_and]
      intro hmb
      exact absurd hmb hm.2
    unfold listTasks
    simp only [checkMembership, hnone]
    rw [if_pos trivial]

/-- Witness for the C6 theorem at the concrete scenario state: after
`a` deletes `b1` and the event is handled, `a`'s own `ListTasks(b1)`
gets `PermissionDenied`. -/
theorem boardDelete_cascade_effects_witness :
    listTasks (removeBoard cascadeMid.bdb "a" "b1").2.1
        (handleBoardDeleteEvent cascadeMid.tdb "b1").2 "a" "b1"
        ⟨"", 10, 0⟩ =
      .error ⟨.permissionDenied,
        "access denied: must be a board member to list tasks"⟩ :=
  (boardDelete_cascade_effects cascadeMid.bdb cascadeMid.tdb "a" "b1"
    rfl rfl).2.2.2 "a" ⟨"", 10, 0⟩

/-- C10: in every reachable state every board id has at most one Admin
membership row, every registered board has exactly one, and — for any
store — an Admin inviter proposing the role `Admin` is refused with
`InvalidArgument`, so invitations (whose acceptance inserts only the
stored role) never mint a second Admin. -/
theorem unique_admin_per_board (s : Sys) (hreach : Reachable s) :
    (∀ bid, countAdmins s.bdb.members bid ≤ 1) ∧
    (∀ b ∈ s.bdb.boards, countAdmins s.bdb.members b.id = 1) ∧
    (∀ db uid p newId r, findRole db p.boardId uid = some r → r = "Admin" →
      p.boardId ≠ "" → p.inviteeId ≠ "" → p.role = "Admin" →
      (inviteUser db uid p newId).1 =
        .error ⟨.invalidArgument, "role must be 'Member' or 'Viewer'"⟩) := by
  have hinv := reachable_boardInv hreach
  refine ⟨?_, hinv.adminOne, ?_⟩
  · intro bid
    by_cases hb : ∃ b ∈ s.bdb.boards, b.id = bid
    · obtain ⟨b, hbm, he⟩ := hb
      rw [← he, hinv.adminOne b hbm]
    · have hz : countAdmins s.bdb.members bid = 0 := by
        apply countAdmins_eq_zero
        intro m hm he
        exact hb (he ▸ hinv.memberBoard m hm)
      omega
  · intro db uid p newId r hfr hr hb hi hrole
    unfold inviteUser
    rw [if_neg ?_, if_neg (fun h => h (hr ▸ hfr)),
      if_pos (by rw [hrole]; exact ⟨by decide, by decide⟩)]
    rintro (h | h | h)
    · exact hb h
    · exact hi h
    · rw [hrole] at h
      exact absurd h (by decide)

/-- Witness for the C10 theorem at the reachable `viewerScenario`
state: board `b1` has exactly one Admin row. -/
theorem unique_admin_per_board_witness :
    countAdmins viewerScenario.bdb.members "b1" = 1 := by
  have h := (unique_admin_per_board viewerScenario
    viewerScenario_reachable).2.1
  have hb : (⟨"b1", "B", "", "a"⟩ : Board) ∈ viewerScenario.bdb.boards := by
    decide
  exact h ⟨"b1", "B", "", "a"⟩ hb
